import Mathlib

/-!
Foraker: filter registry and handler-chain executor, shallowly embedded.

This file embeds the filter-registration DSL (`lib/filter-dsl.js`) and the
controller's handler-chain executor (the full controller variant: the one
with `strictAsyncMode`, `_executeHandlerChain`, `_executeHandler`,
`_buildFilters`, `_filtersForAction`) and proves properties of them.

Modelling conventions:
* JavaScript error values become the inductive `Foraker.JsErr`; an error
  constructed with a message that embeds a name carries that name as an
  argument (e.g. `incompleteAction action` models the
  `Incomplete action! ... your ${actionName} action ...` error).
* `options.only` / `options.except` arguments are `Option (List String)`:
  `none` models "not supplied" (falsy `undefined`), `some xs` a supplied
  value, already taken through `ensureArray` (a bare string becomes a
  singleton list).  A supplied empty array is `some []`, which is truthy in
  JavaScript, matching the `options.only && options.except` check.
* Promises are not simulated with an event loop.  Each handler's observable
  behaviour is a `Foraker.HB` value, and `execHandler` computes the settled
  state of the wrapper promise built in `_executeHandler`, threading the
  first-settle-wins discipline of JavaScript promises (a `resolve`, `reject`
  or executor `throw` after the promise has settled is a no-op).
-/

namespace Foraker

/-- JavaScript error values observable in the dispatch path.  Constructor
arguments record the names interpolated into the corresponding message
strings in the source. -/
inductive JsErr where
  /-- An arbitrary value thrown or rejected by user handler code. -/
  | user (n : Nat)
  /-- `You cannot supply both 'only' and 'except' options to a filter` -/
  | conflictingOptions
  /-- `You are trying to skip the ${name} ${stage} filter, but it is not present!` -/
  | unknownFilter (name stage : String)
  /-- `${actionName} action is not defined on this controller` (assert in `action`) -/
  | undefinedAction (name : String)
  /-- `${handlerName} filter is not defined.` (assert in `_executeHandlerChain`) -/
  | undefinedFilter (name : String)
  /-- `Your ${actionName} action returned a Promise *and* called continue - you cannot do both.` -/
  | dualCompletion (action : String)
  /-- `"${handler.name}" did not return a promise or accept a next() callback. ...` -/
  | missingCompletionSignal (handler : String)
  /-- `Incomplete action! It looks like your ${actionName} action didn't respond or throw an error.` -/
  | incompleteAction (action : String)
  /-- bluebird's `Promise.CancellationError`, used as the internal skip signal. -/
  | cancellation
deriving DecidableEq, Repr

/-- The normalized `options` object stored on a filter declaration:
`options.only`, `options.except` (after `ensureArray`) and the `skip` flag
set by `_skip`. -/
structure FilterOptions where
  only : List String
  except : List String
  skip : Bool
deriving DecidableEq, Repr

/-- One entry of the `this.filters` array built by the DSL:
`{ name, stage, options }` as pushed by `_filter`.  `stage` is the string
`"before"` or `"after"`, as in the source. -/
structure FilterDecl where
  name : String
  stage : String
  options : FilterOptions
deriving DecidableEq, Repr

/-- The raw `options` argument of a DSL call, before normalization:
`none` = not supplied (`undefined`), `some xs` = supplied, with
`ensureArray` applied (a bare string is a singleton list). -/
structure RawOptions where
  only : Option (List String) := none
  except : Option (List String) := none
deriving DecidableEq, Repr

/-- `FilterDSL._filter(name, stage, options)`: rejects when both `only` and
`except` are supplied (both truthy), otherwise normalizes both to arrays and
pushes `{ name, stage, options }` onto `this.filters`. -/
def _filter (filters : List FilterDecl) (name stage : String) (opts : RawOptions) :
    Except JsErr (List FilterDecl) :=
  if opts.only.isSome && opts.except.isSome then
    .error .conflictingOptions
  else
    .ok (filters ++ [⟨name, stage, ⟨opts.only.getD [], opts.except.getD [], false⟩⟩])

/-- The `findWhere(this.filters, { name, stage })` predicate. -/
def filterMatches (name stage : String) (f : FilterDecl) : Bool :=
  f.name == name && f.stage == stage

/-- In-place mutation of the first list element satisfying `p` (the effect of
mutating the object returned by `findWhere` on the `this.filters` array). -/
def modifyFirst (p : FilterDecl → Bool) (g : FilterDecl → FilterDecl) :
    List FilterDecl → List FilterDecl
  | [] => []
  | f :: fs => if p f then g f :: fs else f :: modifyFirst p g fs

/-- The mutation `_skip` performs on the located declaration: merge supplied
`only` into the declaration's `except`, else merge supplied `except` into the
declaration's `only`, else set `skip = true`. -/
def skipUpdate (opts : RawOptions) (f : FilterDecl) : FilterDecl :=
  let only := opts.only.getD []
  let except := opts.except.getD []
  if only ≠ [] then
    { f with options := { f.options with except := f.options.except ++ only } }
  else if except ≠ [] then
    { f with options := { f.options with only := f.options.only ++ except } }
  else
    { f with options := { f.options with skip := true } }

/-- `FilterDSL._skip(name, stage, options)`: locates the first declaration
matching `(name, stage)` (`findWhere`), throws `UnknownFilter` if none, and
otherwise mutates that declaration per `skipUpdate`. -/
def _skip (filters : List FilterDecl) (name stage : String) (opts : RawOptions) :
    Except JsErr (List FilterDecl) :=
  match filters.find? (filterMatches name stage) with
  | none => .error (.unknownFilter name stage)
  | some _ => .ok (modifyFirst (filterMatches name stage) (skipUpdate opts) filters)

/-- One call of the public DSL surface: `before`, `after`, `skipBefore`,
`skipAfter`. -/
inductive DSLOp where
  | before (name : String) (opts : RawOptions)
  | after (name : String) (opts : RawOptions)
  | skipBefore (name : String) (opts : RawOptions)
  | skipAfter (name : String) (opts : RawOptions)
deriving DecidableEq, Repr

/-- Run one DSL call against the accumulated `this.filters` array. -/
def runOp (filters : List FilterDecl) : DSLOp → Except JsErr (List FilterDecl)
  | .before name opts => _filter filters name "before" opts
  | .after name opts => _filter filters name "after" opts
  | .skipBefore name opts => _skip filters name "before" opts
  | .skipAfter name opts => _skip filters name "after" opts

/-- Run a sequence of DSL calls (one level's `filters()` body, or several
levels' bodies concatenated); the first throw aborts. -/
def runOps (filters : List FilterDecl) : List DSLOp → Except JsErr (List FilterDecl)
  | [] => .ok filters
  | op :: ops =>
      match runOp filters op with
      | .error e => .error e
      | .ok filters' => runOps filters' ops

/-- `Controller._buildFilters`: walk the prototype chain from the instance
upward collecting every level that defines `filters` (most-derived first),
reverse so the parent-most level comes first, and run each level's `filters()`
against one shared DSL.  A level is `none` when it defines no `filters`
method, `some ops` when its `filters()` body performs `ops`.
`protoChain` lists the levels in the order the walk visits them
(most-derived first). -/
def _buildFilters (protoChain : List (Option (List DSLOp))) :
    Except JsErr (List FilterDecl) :=
  runOps [] ((protoChain.filterMap id).reverse.flatten)

/-- The applicability predicate of `_filtersForAction`:
`filter.stage === stage && !skip && !contains(except, actionName) &&
(only.length === 0 || contains(only, actionName))`. -/
def filterApplies (actionName stage : String) (f : FilterDecl) : Bool :=
  f.stage == stage &&
  !f.options.skip &&
  !f.options.except.contains actionName &&
  (f.options.only.isEmpty || f.options.only.contains actionName)

/-- `Controller._filtersForAction(actionName, stage)`: the names
(`pluck(..., 'name')`) of the applicable declarations, in registry order. -/
def _filtersForAction (filters : List FilterDecl) (actionName stage : String) :
    List String :=
  (filters.filter (filterApplies actionName stage)).map (fun f => f.name)

/-- `Controller._buildHandlers(actionName)`: applicable before filters, the
action name, applicable after filters. -/
def _buildHandlers (filters : List FilterDecl) (actionName : String) : List String :=
  _filtersForAction filters actionName "before" ++ [actionName] ++
    _filtersForAction filters actionName "after"

deriving instance DecidableEq for Except

/-- The behaviour of one handler invocation, as observable by
`_executeHandler`.  `sends` records whether the handler marks the response
complete (`res.headersSent := true`) at any point before the relevant
`isResSent` check.  The continuation argument passed to the handler is the
faked-out `next` closure built inside `_executeHandler`. -/
inductive HB where
  /-- The handler throws `e` synchronously (out of `handler.call`, so out of
  the wrapper-promise executor, rejecting the wrapper promise with `e`). -/
  | throws (sends : Bool) (e : JsErr)
  /-- The handler returns a non-thenable and never invokes the continuation.
  `arity` is `handler.length` (its declared parameter count). -/
  | plain (sends : Bool) (arity : Nat)
  /-- The handler returns a thenable and never invokes the continuation; the
  thenable later settles as `settle`.  `sends` covers a response completed
  either synchronously or by the deferred work before it settles (the chain
  reads `res` only when the thenable settles). -/
  | promise (sends : Bool) (settle : Except JsErr Unit)
  /-- The handler synchronously invokes the continuation trigger with `e`
  (`none` = called with no argument).  `alsoPromise` is true when the handler
  additionally returns a thenable (the dual-completion shape). -/
  | next (sends : Bool) (e : Option JsErr) (alsoPromise : Bool)
deriving DecidableEq, Repr

/-- The observable effect of one `_executeHandler` call, once everything it
triggers has settled. -/
structure HandlerStep where
  /-- The settled state of the wrapper promise: `none` when it never settles
  (the handler accepted a `next` callback but neither called it nor returned
  a thenable — no branch of `_executeHandler` fires). -/
  result : Option (Except JsErr Unit)
  /-- The response-sent flag after this handler. -/
  res : Bool
  /-- Invocations of the real framework `next` made directly inside
  `_executeHandler`'s faked-out continuation (argument order preserved). -/
  nextCalls : List (Option JsErr)
  /-- True when the `returned a Promise *and* called continue` diagnostic was
  thrown.  When the wrapper promise has already settled, such a throw inside
  the promise executor is discarded by the first-settle-wins rule, so this
  flag is not reflected in `result`. -/
  dualThrow : Bool
deriving DecidableEq, Repr

/-- `Controller._executeHandler(actionName, handler, req, res, next)` for one
handler whose behaviour is `b`, starting from response state `res`.  Each arm
computes the settled state of the wrapper promise built there, following the
source's control flow and the first-settle-wins discipline of promise
executors:

* `throws`: the synchronous throw out of `handler.call` rejects the wrapper
  promise with the thrown value.
* `plain`: `result` is not a thenable and the continuation was never called,
  so the `handler.length < 3` branch decides: with `strictAsyncMode` it
  throws the missing-completion-signal error (rejecting the wrapper), else it
  rejects with a `CancellationError` when `isResSent(res)` and resolves
  otherwise; a handler of arity ≥ 3 leaves the wrapper pending forever.
* `promise`: `handlerReturnedPromise := true`, no dual throw
  (`handlerCalledNext` is false), and the wrapper settles from the returned
  thenable: rejection is forwarded, resolution rejects with a
  `CancellationError` when `isResSent(res)` at settle time and resolves
  otherwise.
* `next`: the faked-out continuation runs during `handler.call` (before
  `handlerReturnedPromise` is set, so its own dual check does not fire): with
  an error it rejects the wrapper with that error; with no argument it
  rejects the wrapper with a `CancellationError` and immediately invokes the
  real `next()`.  When the handler also returns a thenable, the subsequent
  thenable check sees `handlerCalledNext` and throws the dual-completion
  error — but the wrapper promise is already settled, so the throw is
  discarded (recorded in `dualThrow`) and `result.then` is never attached.
  When it returns a non-thenable instead, the `handler.length < 3` branch can
  only resolve/reject/throw after the wrapper already settled: all no-ops. -/
def execHandler (strict : Bool) (handlerName : String) (res : Bool) : HB → HandlerStep
  | .throws sends e => ⟨some (.error e), res || sends, [], false⟩
  | .plain sends arity =>
      let res' := res || sends
      if arity < 3 then
        if strict then
          ⟨some (.error (.missingCompletionSignal handlerName)), res', [], false⟩
        else if res' then
          ⟨some (.error .cancellation), res', [], false⟩
        else
          ⟨some (.ok ()), res', [], false⟩
      else
        ⟨none, res', [], false⟩
  | .promise sends settle =>
      let res' := res || sends
      match settle with
      | .error e => ⟨some (.error e), res', [], false⟩
      | .ok () =>
          if res' then ⟨some (.error .cancellation), res', [], false⟩
          else ⟨some (.ok ()), res', [], false⟩
  | .next sends e alsoPromise =>
      let res' := res || sends
      match e with
      | some err => ⟨some (.error err), res', [], alsoPromise⟩
      | none => ⟨some (.error .cancellation), res', [none], alsoPromise⟩

/-- The terminal state of one dispatch: how the
`handlerChain.each(...).then(...).catch(...)` pipeline settles. -/
inductive Outcome where
  /-- All handlers ran and the response was sent: the `.then` check passes,
  no catch fires. -/
  | completed
  /-- The chain rejected with a `CancellationError`: the
  `.catch(Promise.CancellationError, ...)` arm fires. -/
  | skipped
  /-- The chain rejected with any other error: the final `.catch` arm fires. -/
  | failed (e : JsErr)
  /-- A handler's wrapper promise never settles: the dispatch hangs. -/
  | hung
deriving DecidableEq, Repr

/-- The observable effect of one `_executeHandlerChain` run. -/
structure ChainResult where
  outcome : Outcome
  /-- Every invocation of the real framework `next`, in order, with its
  argument (`none` = called with no argument). -/
  nextCalls : List (Option JsErr)
  /-- How many handlers were actually invoked. -/
  handlersRun : Nat
  /-- Final response-sent flag. -/
  res : Bool
deriving DecidableEq, Repr

/-- `Controller._executeHandlerChain(actionName, handlers, req, res, next)`:
run the named handlers sequentially.  Each name is looked up on the
controller (`this[handlerName]`); a failed lookup trips the
`${handlerName} filter is not defined.` assert inside the `.each` callback,
rejecting the chain (caught by the generic `.catch`, which invokes
`next(err)`).  A handler whose wrapper resolves lets the chain proceed; a
rejection aborts `.each` and reaches the catches: a `CancellationError`
invokes `next()` with no argument, any other error invokes `next(err)`.
After all handlers, the `.then` arm throws the incomplete-action error when
the response was never sent, which the generic catch turns into `next(err)`. -/
def runChain (strict : Bool) (actionName : String) (methods : String → Option HB)
    (res : Bool) : List String → ChainResult
  | [] =>
      if res then ⟨.completed, [], 0, res⟩
      else ⟨.failed (.incompleteAction actionName),
            [some (.incompleteAction actionName)], 0, res⟩
  | h :: hs =>
      match methods h with
      | none => ⟨.failed (.undefinedFilter h), [some (.undefinedFilter h)], 0, res⟩
      | some b =>
          let step := execHandler strict h res b
          match step.result with
          | none => ⟨.hung, step.nextCalls, 1, step.res⟩
          | some (.ok ()) =>
              let rest := runChain strict actionName methods step.res hs
              ⟨rest.outcome, step.nextCalls ++ rest.nextCalls,
               rest.handlersRun + 1, rest.res⟩
          | some (.error e) =>
              if e = .cancellation then ⟨.skipped, step.nextCalls ++ [none], 1, step.res⟩
              else ⟨.failed e, step.nextCalls ++ [some e], 1, step.res⟩

/-- A controller instance, after `init`/`_buildFilters` have run.
`ownActions` are the method names defined at the most specific prototype
level (`prototypeOf(this).hasOwnProperty(...)`); `methods` is the full
prototype-chain lookup `this[name]`, giving each defined handler's behaviour
for this dispatch. -/
structure Controller where
  ownActions : List String
  methods : String → Option HB
  strictAsyncMode : Bool
  filters : List FilterDecl

/-- `Controller.action(actionName)`'s middleware for one request: assert the
action is defined on the controller's own prototype level (a synchronous
throw, modelled as `Except.error`), build the handler chain, and execute it. -/
def dispatch (c : Controller) (actionName : String) (res : Bool) :
    Except JsErr ChainResult :=
  if c.ownActions.contains actionName then
    .ok (runChain c.strictAsyncMode actionName c.methods res
          (_buildHandlers c.filters actionName))
  else
    .error (.undefinedAction actionName)

/-- Helper for stating "every handler up to here proceeds": runs the named
handlers from response state `res` and returns the final response state when
every lookup succeeds and every `execHandler` wrapper resolves (the
chain-proceeds branch of `runChain`); `none` as soon as one aborts, hangs or
is undefined. -/
def chainProceeds (strict : Bool) (methods : String → Option HB) (res : Bool) :
    List String → Option Bool
  | [] => some res
  | h :: hs =>
      match methods h with
      | none => none
      | some b =>
          let step := execHandler strict h res b
          match step.result with
          | some (.ok ()) => chainProceeds strict methods step.res hs
          | _ => none

/-- Is this DSL call a declaration (`before`/`after`), as opposed to a skip? -/
def DSLOp.isDecl : DSLOp → Bool
  | .before _ _ => true
  | .after _ _ => true
  | .skipBefore _ _ => false
  | .skipAfter _ _ => false

/-- The identity of a declaration as `findWhere` sees it. -/
def declKey (f : FilterDecl) : String × String := (f.name, f.stage)

/-! ### Concrete fixtures used by the closed theorems below -/

/-- A controller whose single action handler `act` is
`(req, res, next) => next()`: it synchronously invokes the continuation
trigger with no argument and returns nothing. -/
def explicitContinueController : Controller :=
  ⟨["act"], fun n => if n == "act" then some (.next false none false) else none,
   true, []⟩

/-- A controller (default `strictAsyncMode`) whose single action handler
`act` is synchronous, of arity 2, and sends the response as a side effect
(`(req, res) => res.json(...)`). -/
def strictSyncSendController : Controller :=
  ⟨["act"], fun n => if n == "act" then some (.plain true 2) else none,
   true, []⟩

/-- A controller whose action handler `act` both synchronously calls the
continuation trigger with no argument and returns a thenable, with an
`after` filter `aft` registered behind it. -/
def dualCompletionController : Controller :=
  ⟨["act"],
   fun n =>
     if n == "act" then some (.next false none true)
     else if n == "aft" then some (.promise true (.ok ())) else none,
   true, [⟨"aft", "after", ⟨[], [], false⟩⟩]⟩

/-- A registry holding two declarations with the same `(name, stage)` pair:
a duplicate `auth` before filter. -/
def dupRegistry : List FilterDecl :=
  [⟨"auth", "before", ⟨[], [], false⟩⟩, ⟨"auth", "before", ⟨["edit"], [], false⟩⟩]

/-! ### Helper lemmas -/

/-- A handler step whose wrapper promise resolves never invoked the real
continuation: every resolving branch of `_executeHandler` has an empty
`nextCalls` trace. -/
theorem execHandler_ok_nextCalls (strict : Bool) (h : String) (res : Bool) (b : HB)
    (hok : (execHandler strict h res b).result = some (.ok ())) :
    (execHandler strict h res b).nextCalls = [] := by
  cases b with
  | throws s e => rfl
  | plain s arity =>
      simp only [execHandler]
      split_ifs <;> rfl
  | promise s settle =>
      cases settle with
      | error e => rfl
      | ok u =>
          cases u
          simp only [execHandler]
          split_ifs <;> rfl
  | next s e also =>
      cases e with
      | some err => simp [execHandler] at hok
      | none => simp [execHandler] at hok

/-- Unfolding `runChain` over a handler whose wrapper promise resolves:
the chain proceeds to the remaining handlers from the updated response
state, with one more handler counted. -/
theorem runChain_cons_ok (strict : Bool) (a h : String) (m : String → Option HB)
    (res : Bool) (b : HB) (hs : List String)
    (hm : m h = some b)
    (hok : (execHandler strict h res b).result = some (.ok ())) :
    runChain strict a m res (h :: hs) =
      ⟨(runChain strict a m (execHandler strict h res b).res hs).outcome,
       (runChain strict a m (execHandler strict h res b).res hs).nextCalls,
       (runChain strict a m (execHandler strict h res b).res hs).handlersRun + 1,
       (runChain strict a m (execHandler strict h res b).res hs).res⟩ := by
  simp only [runChain, hm]
  rw [hok, execHandler_ok_nextCalls strict h res b hok]
  simp

/-! ### Claims -/

/-- C1: evaluation of the code at the failing input.  A dispatch whose only
handler synchronously invokes the continuation trigger with no argument
settles as `Skipped`, but the framework continuation is invoked **twice**
with no argument: once directly inside the faked-out `next` closure
(`reject(new Promise.CancellationError()); next();`), and once more by the
chain-level `.catch(Promise.CancellationError, () => next())`.  This
contradicts the claim that the continuation is invoked at most once per
dispatch (`Skipped` → exactly once); the response-detected skip paths reject
with the `CancellationError` alone and reach one invocation, showing the
direct `next()` call to be the slip. -/
theorem c1_explicit_continue_invokes_continuation_twice :
    dispatch explicitContinueController "act" false =
      .ok ⟨.skipped, [none, none], 1, false⟩ := by
  rfl

/-- C2: counterexample.  Under the default strict policy, a synchronous
handler (arity < 3, returns no thenable, never calls the continuation) that
has already marked the response complete as a side effect is **not** treated
as implicit success: `_executeHandler` reaches the `strictAsyncMode` branch
and throws the missing-completion-signal error unconditionally, so the
dispatch fails with `MissingCompletionSignal` and the continuation receives
that error — the claim's UNLESS clause predicts a proceeding chain that
completes with no continuation call. -/
theorem c2_strict_completed_response_counterexample :
    dispatch strictSyncSendController "act" false =
      .ok ⟨.failed (.missingCompletionSignal "act"),
           [some (.missingCompletionSignal "act")], 1, true⟩ := by
  rfl

/-- C2 (amended): a handler invocation that neither returns a thenable nor
invokes the continuation trigger (arity < 3) is handled as follows: under
the default strict policy the chain always fails with
`MissingCompletionSignal`, regardless of whether the response has been
marked complete; with the per-instance strict toggle disabled, the handler
is treated as implicit success and the chain proceeds when the response is
not marked complete, and the chain aborts as `Skipped` when it is. -/
theorem c2_sync_handler_policy (strict : Bool) (a h : String)
    (m : String → Option HB) (res sends : Bool) (arity : Nat) (hs : List String)
    (hm : m h = some (.plain sends arity)) (h3 : arity < 3) :
    (strict = true →
      runChain strict a m res (h :: hs) =
        ⟨.failed (.missingCompletionSignal h),
         [some (.missingCompletionSignal h)], 1, res || sends⟩) ∧
    (strict = false → (res || sends) = true →
      runChain strict a m res (h :: hs) = ⟨.skipped, [none], 1, true⟩) ∧
    (strict = false → (res || sends) = false →
      runChain strict a m res (h :: hs) =
        ⟨(runChain strict a m false hs).outcome,
         (runChain strict a m false hs).nextCalls,
         (runChain strict a m false hs).handlersRun + 1,
         (runChain strict a m false hs).res⟩) := by
  refine ⟨?_, ?_, ?_⟩
  · intro hstrict
    subst hstrict
    simp [runChain, hm, execHandler, h3]
  · intro hstrict hr
    subst hstrict
    simp [runChain, hm, execHandler, h3, hr]
  · intro hstrict hr
    subst hstrict
    have := runChain_cons_ok false a h m res (.plain sends arity) hs hm
      (by simp [execHandler, h3, hr])
    rw [this]
    simp [execHandler, h3, hr]

/-- C2 witness: instantiates the amended theorem at a concrete non-strict
controller whose sync handler runs with the response not yet complete, and
checks the chain proceeds to the end (failing there with the
incomplete-action error, as no handler ever sends). -/
theorem c2_sync_handler_policy_witness :
    runChain false "act" (fun n => if n == "act" then some (.plain false 2) else none)
      false ["act"] =
      ⟨.failed (.incompleteAction "act"), [some (.incompleteAction "act")], 1, false⟩ := by
  have h := (c2_sync_handler_policy false "act" "act"
      (fun n => if n == "act" then some (.plain false 2) else none)
      false false 2 [] rfl (by decide)).2.2 rfl rfl
  rw [h]
  rfl

/-- C3: a handler that returns a thenable suspends the chain until it
settles.  Rejection (with any error other than bluebird's own
`CancellationError` class, whose use as a rejection value is
indistinguishable from the internal skip signal) aborts the chain with
outcome `Failed(reason)`, the reason passed to the continuation, and no
further handler runs; resolution with the response marked complete during
that handler's execution aborts the chain as `Skipped` with no remaining
handler run; resolution with the response not complete proceeds to the next
handler. -/
theorem c3_promise_handler (strict : Bool) (a h : String) (m : String → Option HB)
    (res sends : Bool) (hs : List String) :
    (∀ e : JsErr, e ≠ .cancellation → m h = some (.promise sends (.error e)) →
      runChain strict a m res (h :: hs) = ⟨.failed e, [some e], 1, res || sends⟩) ∧
    ((res || sends) = true → m h = some (.promise sends (.ok ())) →
      runChain strict a m res (h :: hs) = ⟨.skipped, [none], 1, true⟩) ∧
    ((res || sends) = false → m h = some (.promise sends (.ok ())) →
      runChain strict a m res (h :: hs) =
        ⟨(runChain strict a m false hs).outcome,
         (runChain strict a m false hs).nextCalls,
         (runChain strict a m false hs).handlersRun + 1,
         (runChain strict a m false hs).res⟩) := by
  refine ⟨?_, ?_, ?_⟩
  · intro e he hm
    simp [runChain, hm, execHandler, he]
  · intro hr hm
    simp [runChain, hm, execHandler, hr]
  · intro hr hm
    have := runChain_cons_ok strict a h m res (.promise sends (.ok ())) hs hm
      (by simp [execHandler, hr])
    rw [this]
    simp [execHandler, hr]

/-- C3 witness: a two-handler chain where the first handler's thenable
resolves with the response unsent (proceed), and the second handler's
thenable rejects (abort with the rejection reason). -/
theorem c3_promise_handler_witness :
    runChain true "act"
      (fun n =>
        if n == "flt" then some (.promise false (.ok ()))
        else if n == "act" then some (.promise false (.error (.user 7))) else none)
      false ["flt", "act"] =
      ⟨.failed (.user 7), [some (.user 7)], 2, false⟩ := by
  have h1 := (c3_promise_handler true "act" "flt"
      (fun n =>
        if n == "flt" then some (.promise false (.ok ()))
        else if n == "act" then some (.promise false (.error (.user 7))) else none)
      false false ["act"]).2.2 rfl rfl
  rw [h1]
  have h2 := (c3_promise_handler true "act" "act"
      (fun n =>
        if n == "flt" then some (.promise false (.ok ()))
        else if n == "act" then some (.promise false (.error (.user 7))) else none)
      false false []).1 (.user 7) (by decide) rfl
  rw [h2]
  rfl

/-- C7: evaluation of the code at the failing input.  A handler that both
synchronously invokes the continuation trigger and returns a thenable never
surfaces the `DualCompletionError`: the faked-out `next` has already settled
the wrapper promise (and, for the no-argument call, already invoked the real
continuation) by the time the `handlerReturnedPromise` check throws, so the
throw inside the promise executor is discarded (`dualThrow` records it) and
the dispatch settles per the continuation call — `Skipped` for `next()`
(with the continuation invoked, twice), `Failed(err)` for `next(err)`.  The
registered after filter never runs (`handlersRun = 1`), so the "no
subsequent handler" half of the claim does hold on this path. -/
theorem c7_dual_completion_unobservable :
    (execHandler true "act" false (.next false none true)).dualThrow = true ∧
    (execHandler true "act" false (.next false none true)).result =
      some (.error .cancellation) ∧
    (execHandler true "act" false (.next false (some (.user 5)) true)).result =
      some (.error (.user 5)) ∧
    (execHandler true "act" false (.next false (some (.user 5)) true)).dualThrow = true ∧
    dispatch dualCompletionController "act" false =
      .ok ⟨.skipped, [none, none], 1, false⟩ := by
  exact ⟨rfl, rfl, rfl, rfl, rfl⟩

/-- C8: when every handler in the chain runs without abort (every lookup
succeeds and every wrapper promise resolves) and the response has not been
marked complete at the end, the dispatch fails with the incomplete-action
error — whose constructor carries the action name interpolated into its
message — and that error is passed to the framework continuation, exactly
once. -/
theorem c8_incomplete_action (strict : Bool) (a : String) (m : String → Option HB)
    (res : Bool) (names : List String)
    (h : chainProceeds strict m res names = some false) :
    runChain strict a m res names =
      ⟨.failed (.incompleteAction a), [some (.incompleteAction a)],
       names.length, false⟩ := by
  induction names generalizing res with
  | nil =>
      simp only [chainProceeds, Option.some.injEq] at h
      subst h
      rfl
  | cons hd tl ih =>
      simp only [chainProceeds] at h
      cases hm : m hd with
      | none => rw [hm] at h; simp at h
      | some b =>
          rw [hm] at h
          simp only at h
          cases hres : (execHandler strict hd res b).result with
          | none => rw [hres] at h; simp at h
          | some r =>
            cases r with
            | error e => rw [hres] at h; simp at h
            | ok u =>
                cases u
                rw [hres] at h
                simp only at h
                rw [runChain_cons_ok strict a hd m res b tl hm hres, ih _ h]
                rfl

/-- C8 witness: a single promise-returning action handler that resolves
without sending the response. -/
theorem c8_incomplete_action_witness :
    runChain true "act" (fun n => if n == "act" then some (.promise false (.ok ())) else none)
      false ["act"] =
      ⟨.failed (.incompleteAction "act"), [some (.incompleteAction "act")], 1, false⟩ := by
  exact c8_incomplete_action true "act"
    (fun n => if n == "act" then some (.promise false (.ok ())) else none)
    false ["act"] (by rfl)

/-- C9: the precondition checks of dispatch.  (1) When the requested action
name is not among the methods defined at the most specific prototype level
(`prototypeOf(this).hasOwnProperty`), the dispatch throws `UndefinedAction`
synchronously — a merely inherited method is not in `ownActions` and so does
not satisfy the check.  (2) When a name in the handler chain does not
resolve to a defined method (`this[handlerName]` is undefined), the chain —
having run the preceding handlers — fails with `UndefinedFilter`, passed to
the continuation. -/
theorem c9_undefined_action_and_filter :
    (∀ (c : Controller) (a : String) (res : Bool), c.ownActions.contains a = false →
      dispatch c a res = .error (.undefinedAction a)) ∧
    (∀ (strict : Bool) (a : String) (m : String → Option HB) (res : Bool)
        (pre : List String) (h : String) (post : List String) (res₁ : Bool),
      chainProceeds strict m res pre = some res₁ → m h = none →
      runChain strict a m res (pre ++ h :: post) =
        ⟨.failed (.undefinedFilter h), [some (.undefinedFilter h)], pre.length, res₁⟩) := by
  constructor
  · intro c a res hc
    simp at hc
    simp [dispatch, hc]
  · intro strict a m res pre h post res₁ hpre hm
    induction pre generalizing res with
    | nil =>
        simp only [chainProceeds, Option.some.injEq] at hpre
        subst hpre
        simp [runChain, hm]
    | cons hd tl ih =>
        simp only [chainProceeds] at hpre
        cases hmh : m hd with
        | none => rw [hmh] at hpre; simp at hpre
        | some b =>
            rw [hmh] at hpre
            simp only at hpre
            cases hres : (execHandler strict hd res b).result with
            | none => rw [hres] at hpre; simp at hpre
            | some r =>
              cases r with
              | error e => rw [hres] at hpre; simp at hpre
              | ok u =>
                  cases u
                  rw [hres] at hpre
                  simp only at hpre
                  rw [List.cons_append,
                    runChain_cons_ok strict a hd m res b (tl ++ h :: post) hmh hres,
                    ih _ hpre]
                  rfl

/-- C9 witness: a controller with no own `other` action (first conjunct) and
a chain whose first filter name `ghost` is not a defined method, after a
proceeding filter (second conjunct). -/
theorem c9_undefined_action_and_filter_witness :
    dispatch strictSyncSendController "other" false =
      .error (.undefinedAction "other") ∧
    runChain true "act"
      (fun n => if n == "flt" then some (.promise false (.ok ())) else none)
      false ["flt", "ghost"] =
      ⟨.failed (.undefinedFilter "ghost"), [some (.undefinedFilter "ghost")], 1, false⟩ := by
  constructor
  · exact c9_undefined_action_and_filter.1 strictSyncSendController "other" false (by rfl)
  · exact c9_undefined_action_and_filter.2 true "act"
      (fun n => if n == "flt" then some (.promise false (.ok ())) else none)
      false ["flt"] "ghost" [] false (by rfl) (by rfl)

/-- A successful `_filter` call appends exactly one declaration, and that
declaration satisfies the only/except mutual-exclusivity invariant (the
conflict guard rejected any call supplying both). -/
theorem _filter_pushes_exclusive (fs : List FilterDecl) (name stage : String)
    (opts : RawOptions) (fs' : List FilterDecl)
    (h : _filter fs name stage opts = .ok fs') :
    fs' = fs ++ [⟨name, stage, ⟨opts.only.getD [], opts.except.getD [], false⟩⟩] ∧
    ((opts.only.getD [] : List String) = [] ∨ (opts.except.getD [] : List String) = []) := by
  unfold _filter at h
  by_cases hb : (opts.only.isSome && opts.except.isSome) = true
  · rw [if_pos hb] at h
    simp at h
  · rw [if_neg hb] at h
    simp only [Except.ok.injEq] at h
    refine ⟨h.symm, ?_⟩
    cases ho : opts.only with
    | none => left; rfl
    | some xs =>
        cases he : opts.except with
        | none => right; rfl
        | some ys => exact absurd (by rw [ho, he]; rfl) hb

/-- Declaration-only DSL runs preserve the mutual-exclusivity invariant on
every accumulated declaration. -/
theorem runOps_decl_exclusive : ∀ (ops : List DSLOp) (fs reg : List FilterDecl),
    (∀ op ∈ ops, op.isDecl = true) →
    (∀ f ∈ fs, f.options.only = [] ∨ f.options.except = []) →
    runOps fs ops = .ok reg →
    ∀ f ∈ reg, f.options.only = [] ∨ f.options.except = []
  | [], fs, reg, _, hfs, h => by
      simp only [runOps, Except.ok.injEq] at h
      subst h
      exact hfs
  | op :: ops, fs, reg, hops, hfs, h => by
      simp only [runOps] at h
      cases hop : runOp fs op with
      | error e => rw [hop] at h; simp at h
      | ok fs₁ =>
          rw [hop] at h
          simp only at h
          have hd := hops op (List.mem_cons_self op ops)
          have hops' : ∀ o ∈ ops, o.isDecl = true :=
            fun o ho => hops o (List.mem_cons_of_mem op ho)
          have hfs₁ : ∀ f ∈ fs₁, f.options.only = [] ∨ f.options.except = [] := by
            cases op with
            | before nm o =>
                obtain ⟨heq, hinv⟩ := _filter_pushes_exclusive fs nm "before" o fs₁ hop
                subst heq
                intro f hf
                rcases List.mem_append.mp hf with hf | hf
                · exact hfs f hf
                · rw [List.mem_singleton.mp hf]
                  exact hinv
            | after nm o =>
                obtain ⟨heq, hinv⟩ := _filter_pushes_exclusive fs nm "after" o fs₁ hop
                subst heq
                intro f hf
                rcases List.mem_append.mp hf with hf | hf
                · exact hfs f hf
                · rw [List.mem_singleton.mp hf]
                  exact hinv
            | skipBefore nm o => simp [DSLOp.isDecl] at hd
            | skipAfter nm o => simp [DSLOp.isDecl] at hd
          exact runOps_decl_exclusive ops fs₁ reg hops' hfs₁ h

/-- C4: counterexample.  Declaring a before filter with an `only` whitelist
and then skipping it with an `only` option produces a reachable registry
state whose single declaration has **both** `only = ["a"]` and
`except = ["b"]` non-empty: `_skip` merges the skip's `only` names into the
declaration's `except` without re-checking the mutual-exclusivity invariant,
so the invariant does not hold over all four operations. -/
theorem c4_skip_merge_counterexample :
    runOps [] [.before "f" ⟨some ["a"], none⟩, .skipBefore "f" ⟨some ["b"], none⟩] =
      .ok [⟨"f", "before", ⟨["a"], ["b"], false⟩⟩] ∧
    ¬((["a"] : List String) = [] ∨ (["b"] : List String) = []) := by
  exact ⟨rfl, by simp⟩

/-- C4 (amended): any `before`/`after` declaration supplying both `only` and
`except` fails with `ConflictingOptions`, and in every registry state
reachable by declaration operations alone (no skips), every declaration has
at most one of its `only` and `except` sets non-empty; skip operations can
break this invariant by merging narrowing options into an existing
declaration. -/
theorem c4_declaration_exclusivity (filters : List FilterDecl) (name stage : String)
    (opts : RawOptions) (ops : List DSLOp) (reg : List FilterDecl) :
    (opts.only.isSome = true → opts.except.isSome = true →
      _filter filters name stage opts = .error .conflictingOptions) ∧
    ((∀ op ∈ ops, op.isDecl = true) → runOps [] ops = .ok reg →
      ∀ f ∈ reg, f.options.only = [] ∨ f.options.except = []) := by
  constructor
  · intro h1 h2
    unfold _filter
    rw [if_pos (by rw [h1, h2]; rfl)]
  · intro hops h
    exact runOps_decl_exclusive ops [] reg hops (by simp) h

/-- C4 witness: the conflict guard fires on a concrete conflicting
declaration, and a concrete skip-free run yields only invariant-satisfying
declarations. -/
theorem c4_declaration_exclusivity_witness :
    _filter [] "f" "before" ⟨some ["a"], some ["b"]⟩ = .error .conflictingOptions ∧
    ∀ f ∈ [(⟨"x", "before", ⟨["a"], [], false⟩⟩ : FilterDecl),
           ⟨"y", "after", ⟨[], ["b"], false⟩⟩],
      f.options.only = [] ∨ f.options.except = [] := by
  constructor
  · exact (c4_declaration_exclusivity [] "f" "before" ⟨some ["a"], some ["b"]⟩ [] []).1
      rfl rfl
  · exact (c4_declaration_exclusivity [] "f" "before" ⟨some ["a"], some ["b"]⟩
      [.before "x" ⟨some ["a"], none⟩, .after "y" ⟨none, some ["b"]⟩]
      [⟨"x", "before", ⟨["a"], [], false⟩⟩, ⟨"y", "after", ⟨[], ["b"], false⟩⟩]).2
      (by decide) rfl

/-- Mutating the first match preserves the registry's length. -/
theorem modifyFirst_length (p : FilterDecl → Bool) (g : FilterDecl → FilterDecl) :
    ∀ fs : List FilterDecl, (modifyFirst p g fs).length = fs.length := by
  intro fs
  induction fs with
  | nil => rfl
  | cons f fs ih =>
      simp only [modifyFirst]
      split
      · rfl
      · simp [ih]

/-- Every position other than the first match is untouched by
`modifyFirst`. -/
theorem modifyFirst_getElem?_ne (p : FilterDecl → Bool) (g : FilterDecl → FilterDecl) :
    ∀ (fs : List FilterDecl) (j : Nat), j ≠ fs.findIdx p →
      (modifyFirst p g fs)[j]? = fs[j]? := by
  intro fs
  induction fs with
  | nil => intro j _; rfl
  | cons f fs ih =>
      intro j hj
      rw [List.findIdx_cons] at hj
      by_cases hpf : p f = true
      · simp only [hpf, cond_true] at hj
        simp only [modifyFirst, if_pos hpf]
        cases j with
        | zero => exact absurd rfl hj
        | succ j' => simp
      · simp only [hpf, cond_false] at hj
        simp only [modifyFirst, if_neg hpf]
        cases j with
        | zero => simp
        | succ j' =>
            have hj' : j' ≠ fs.findIdx p := fun hh => hj (by rw [hh])
            simp [ih j' hj']

/-- When `find?` locates a match, the first-match position holds the located
element before the mutation and its image under `g` after. -/
theorem modifyFirst_getElem?_found (p : FilterDecl → Bool) (g : FilterDecl → FilterDecl) :
    ∀ (fs : List FilterDecl) (f : FilterDecl), fs.find? p = some f →
      (modifyFirst p g fs)[fs.findIdx p]? = some (g f) ∧
      fs[fs.findIdx p]? = some f := by
  intro fs
  induction fs with
  | nil => intro f hf; simp [List.find?] at hf
  | cons f0 fs ih =>
      intro f hf
      rw [List.findIdx_cons]
      by_cases hpf : p f0 = true
      · rw [List.find?_cons_of_pos _ hpf] at hf
        injection hf with hf
        subst hf
        simp only [hpf, cond_true]
        exact ⟨by simp [modifyFirst, hpf], by simp⟩
      · rw [List.find?_cons_of_neg _ hpf] at hf
        simp only [hpf, cond_false]
        have hih := ih f hf
        exact ⟨by simp only [modifyFirst, if_neg hpf]; simp [hih.1], by simp [hih.2]⟩

/-- C10: a skip operation mutates only the first declaration matching
`(name, stage)`: the registry keeps its length, the first-match position is
replaced by its `skipUpdate` image, and every other position — including any
later duplicate of the same name and stage — is unchanged. -/
theorem c10_skip_touches_only_first_match (fs : List FilterDecl)
    (name stage : String) (opts : RawOptions) (fs' : List FilterDecl)
    (h : _skip fs name stage opts = .ok fs') :
    fs'.length = fs.length ∧
    (∃ f, fs[fs.findIdx (filterMatches name stage)]? = some f ∧
      fs'[fs.findIdx (filterMatches name stage)]? = some (skipUpdate opts f)) ∧
    ∀ j, j ≠ fs.findIdx (filterMatches name stage) → fs'[j]? = fs[j]? := by
  unfold _skip at h
  cases hf : fs.find? (filterMatches name stage) with
  | none => rw [hf] at h; simp at h
  | some f =>
      rw [hf] at h
      simp only [Except.ok.injEq] at h
      subst h
      have hfound := modifyFirst_getElem?_found (filterMatches name stage)
        (skipUpdate opts) fs f hf
      exact ⟨modifyFirst_length _ _ fs, ⟨f, hfound.2, hfound.1⟩,
        fun j hj => modifyFirst_getElem?_ne _ _ fs j hj⟩

/-- C10 witness: skipping on a registry holding two declarations with the
same `(name, stage)` pair leaves the later duplicate untouched. -/
theorem c10_skip_touches_only_first_match_witness :
    _skip dupRegistry "auth" "before" ⟨none, none⟩ =
      .ok [⟨"auth", "before", ⟨[], [], true⟩⟩,
           ⟨"auth", "before", ⟨["edit"], [], false⟩⟩] ∧
    ([(⟨"auth", "before", ⟨[], [], true⟩⟩ : FilterDecl),
      ⟨"auth", "before", ⟨["edit"], [], false⟩⟩])[1]? = dupRegistry[1]? := by
  refine ⟨rfl, ?_⟩
  exact (c10_skip_touches_only_first_match dupRegistry "auth" "before" ⟨none, none⟩
    _ rfl).2.2 1 (by decide)

/-- The skip mutation never changes a declaration's name or stage, so the
`findWhere` predicate is invariant under it. -/
theorem filterMatches_skipUpdate (name stage : String) (opts : RawOptions)
    (f : FilterDecl) :
    filterMatches name stage (skipUpdate opts f) = filterMatches name stage f := by
  simp only [skipUpdate]
  split_ifs <;> rfl

/-- Applying the skip mutation through `modifyFirst` maps the located
declaration and leaves lookup structure intact. -/
theorem find?_modifyFirst_skipUpdate (name stage : String) (opts : RawOptions) :
    ∀ fs : List FilterDecl,
      (modifyFirst (filterMatches name stage) (skipUpdate opts) fs).find?
          (filterMatches name stage) =
        (fs.find? (filterMatches name stage)).map (skipUpdate opts) := by
  intro fs
  induction fs with
  | nil => rfl
  | cons f fs ih =>
      by_cases hpf : filterMatches name stage f = true
      · simp only [modifyFirst, if_pos hpf]
        rw [List.find?_cons_of_pos _ (by rw [filterMatches_skipUpdate]; exact hpf),
            List.find?_cons_of_pos _ hpf]
        rfl
      · simp only [modifyFirst, if_neg hpf]
        rw [List.find?_cons_of_neg _ hpf, List.find?_cons_of_neg _ hpf, ih]

/-- C5: the skip operations.  (1) With no declaration matching
`(name, stage)`, `_skip` fails with `UnknownFilter`.  (2) Otherwise it
mutates the first match: a skip with non-empty `only` merges those action
names into the declaration's `except` set, a skip with empty `only` and
non-empty `except` merges those names into the declaration's `only` set,
and a skip supplying neither sets `skip = true`.  (3) Consequently,
`skipBefore(name, only := [X])` on a declaration with no prior `except`
makes that declaration inapplicable to action `X` while its applicability
to every other action is unchanged, and (4) a skip with no options makes the
declaration inapplicable to every action. -/
theorem c5_skip_narrowing (fs : List FilterDecl) (name stage : String)
    (opts : RawOptions) :
    (fs.find? (filterMatches name stage) = none →
      _skip fs name stage opts = .error (.unknownFilter name stage)) ∧
    (∀ f, fs.find? (filterMatches name stage) = some f →
      _skip fs name stage opts =
        .ok (modifyFirst (filterMatches name stage) (skipUpdate opts) fs) ∧
      (opts.only.getD [] ≠ [] →
        skipUpdate opts f =
          { f with options := { f.options with
              except := f.options.except ++ opts.only.getD [] } }) ∧
      (opts.only.getD [] = [] → opts.except.getD [] ≠ [] →
        skipUpdate opts f =
          { f with options := { f.options with
              only := f.options.only ++ opts.except.getD [] } }) ∧
      (opts.only.getD [] = [] → opts.except.getD [] = [] →
        skipUpdate opts f =
          { f with options := { f.options with skip := true } })) ∧
    (∀ f X, fs.find? (filterMatches name "before") = some f →
      f.options.except = [] →
      (modifyFirst (filterMatches name "before") (skipUpdate ⟨some [X], none⟩) fs).find?
          (filterMatches name "before") = some (skipUpdate ⟨some [X], none⟩ f) ∧
      filterApplies X "before" (skipUpdate ⟨some [X], none⟩ f) = false ∧
      ∀ Y s, Y ≠ X →
        filterApplies Y s (skipUpdate ⟨some [X], none⟩ f) = filterApplies Y s f) ∧
    (∀ f a s, fs.find? (filterMatches name stage) = some f →
      filterApplies a s (skipUpdate ⟨none, none⟩ f) = false) := by
  refine ⟨?_, ?_, ?_, ?_⟩
  · intro hf
    unfold _skip
    rw [hf]
  · intro f hf
    refine ⟨by unfold _skip; rw [hf], ?_, ?_, ?_⟩
    · intro h1
      simp only [skipUpdate]
      rw [if_pos h1]
    · intro h1 h2
      simp only [skipUpdate]
      rw [if_neg (by simp [h1]), if_pos h2]
    · intro h1 h2
      simp only [skipUpdate]
      rw [if_neg (by simp [h1]), if_neg (by simp [h2])]
  · intro f X hf hexc
    refine ⟨?_, ?_, ?_⟩
    · rw [find?_modifyFirst_skipUpdate, hf]
      rfl
    · simp [filterApplies, skipUpdate, hexc]
    · intro Y s hY
      simp [filterApplies, skipUpdate, hexc, hY]
  · intro f a s _
    simp [filterApplies, skipUpdate]

/-- C5 witness: a registry with one unrestricted `auth` before filter.
Skipping it with `only := ["edit"]` makes it inapplicable to `edit` and
leaves its applicability to `show` unchanged; skipping an unregistered
name fails with `UnknownFilter`; a bare skip makes it inapplicable to
everything. -/
theorem c5_skip_narrowing_witness :
    _skip [(⟨"auth", "before", ⟨[], [], false⟩⟩ : FilterDecl)] "ghost" "before"
      ⟨none, none⟩ = .error (.unknownFilter "ghost" "before") ∧
    filterApplies "edit" "before"
      (skipUpdate ⟨some ["edit"], none⟩ ⟨"auth", "before", ⟨[], [], false⟩⟩) = false ∧
    filterApplies "show" "before"
      (skipUpdate ⟨some ["edit"], none⟩ ⟨"auth", "before", ⟨[], [], false⟩⟩) =
      filterApplies "show" "before" (⟨"auth", "before", ⟨[], [], false⟩⟩ : FilterDecl) ∧
    filterApplies "edit" "before"
      (skipUpdate ⟨none, none⟩ ⟨"auth", "before", ⟨[], [], false⟩⟩) = false := by
  refine ⟨?_, ?_, ?_, ?_⟩
  · exact (c5_skip_narrowing [⟨"auth", "before", ⟨[], [], false⟩⟩] "ghost" "before"
      ⟨none, none⟩).1 rfl
  · exact ((c5_skip_narrowing [⟨"auth", "before", ⟨[], [], false⟩⟩] "auth" "before"
      ⟨some ["edit"], none⟩).2.2.1 ⟨"auth", "before", ⟨[], [], false⟩⟩ "edit" rfl rfl).2.1
  · exact ((c5_skip_narrowing [⟨"auth", "before", ⟨[], [], false⟩⟩] "auth" "before"
      ⟨some ["edit"], none⟩).2.2.1 ⟨"auth", "before", ⟨[], [], false⟩⟩ "edit" rfl rfl).2.2
      "show" "before" (by decide)
  · exact (c5_skip_narrowing [⟨"auth", "before", ⟨[], [], false⟩⟩] "auth" "before"
      ⟨none, none⟩).2.2.2 ⟨"auth", "before", ⟨[], [], false⟩⟩ "edit" "before" rfl

/-- The skip mutation preserves a declaration's identity key. -/
theorem declKey_skipUpdate (opts : RawOptions) (f : FilterDecl) :
    declKey (skipUpdate opts f) = declKey f := by
  simp only [skipUpdate]
  split_ifs <;> rfl

/-- Skips rewrite options in place: the registry's sequence of identity keys
is untouched. -/
theorem modifyFirst_map_declKey (p : FilterDecl → Bool) (opts : RawOptions) :
    ∀ fs : List FilterDecl,
      (modifyFirst p (skipUpdate opts) fs).map declKey = fs.map declKey := by
  intro fs
  induction fs with
  | nil => rfl
  | cons f fs ih =>
      simp only [modifyFirst]
      split
      · simp [declKey_skipUpdate]
      · simp [ih]

/-- Running a concatenation of DSL call sequences runs the first sequence,
then the second from the state it left. -/
theorem runOps_append (a b : List DSLOp) : ∀ fs : List FilterDecl,
    runOps fs (a ++ b) =
      match runOps fs a with
      | .ok fs₁ => runOps fs₁ b
      | .error e => .error e := by
  induction a with
  | nil => intro fs; rfl
  | cons op ops ih =>
      intro fs
      simp only [List.cons_append, runOps]
      cases runOp fs op with
      | error e => rfl
      | ok fs₁ => exact ih fs₁

/-- One successful DSL call leaves the already-accumulated declarations in
place, with their names and stages intact (declarations append; skips mutate
options only). -/
theorem declKey_runOp_take (fs : List FilterDecl) (op : DSLOp) (fs' : List FilterDecl)
    (h : runOp fs op = .ok fs') :
    fs.length ≤ fs'.length ∧ (fs'.take fs.length).map declKey = fs.map declKey := by
  cases op with
  | before nm o =>
      obtain ⟨heq, -⟩ := _filter_pushes_exclusive fs nm "before" o fs' h
      subst heq
      exact ⟨by simp, by rw [List.take_left]⟩
  | after nm o =>
      obtain ⟨heq, -⟩ := _filter_pushes_exclusive fs nm "after" o fs' h
      subst heq
      exact ⟨by simp, by rw [List.take_left]⟩
  | skipBefore nm o =>
      have h' : _skip fs nm "before" o = .ok fs' := h
      unfold _skip at h'
      cases hf : fs.find? (filterMatches nm "before") with
      | none => rw [hf] at h'; simp at h'
      | some f =>
          rw [hf] at h'
          simp only [Except.ok.injEq] at h'
          subst h'
          have hlen := modifyFirst_length (filterMatches nm "before") (skipUpdate o) fs
          refine ⟨le_of_eq hlen.symm, ?_⟩
          rw [show fs.length = (modifyFirst (filterMatches nm "before")
                (skipUpdate o) fs).length from hlen.symm,
              List.take_length, modifyFirst_map_declKey]
  | skipAfter nm o =>
      have h' : _skip fs nm "after" o = .ok fs' := h
      unfold _skip at h'
      cases hf : fs.find? (filterMatches nm "after") with
      | none => rw [hf] at h'; simp at h'
      | some f =>
          rw [hf] at h'
          simp only [Except.ok.injEq] at h'
          subst h'
          have hlen := modifyFirst_length (filterMatches nm "after") (skipUpdate o) fs
          refine ⟨le_of_eq hlen.symm, ?_⟩
          rw [show fs.length = (modifyFirst (filterMatches nm "after")
                (skipUpdate o) fs).length from hlen.symm,
              List.take_length, modifyFirst_map_declKey]

/-- A successful DSL run keeps the starting declarations as a key-identical
leading segment of the final registry. -/
theorem declKey_runOps_take : ∀ (ops : List DSLOp) (fs reg : List FilterDecl),
    runOps fs ops = .ok reg →
    fs.length ≤ reg.length ∧ (reg.take fs.length).map declKey = fs.map declKey
  | [], fs, reg, h => by
      simp only [runOps, Except.ok.injEq] at h
      subst h
      exact ⟨le_refl _, by rw [List.take_length]⟩
  | op :: ops, fs, reg, h => by
      simp only [runOps] at h
      cases hop : runOp fs op with
      | error e => rw [hop] at h; simp at h
      | ok fs₁ =>
          rw [hop] at h
          simp only at h
          obtain ⟨hle1, htake1⟩ := declKey_runOp_take fs op fs₁ hop
          obtain ⟨hle2, htake2⟩ := declKey_runOps_take ops fs₁ reg h
          refine ⟨le_trans hle1 hle2, ?_⟩
          calc (reg.take fs.length).map declKey
              = ((reg.take fs₁.length).take fs.length).map declKey := by
                rw [List.take_take, min_eq_left hle1]
            _ = ((reg.take fs₁.length).map declKey).take fs.length := by
                rw [List.map_take]
            _ = (fs₁.map declKey).take fs.length := by rw [htake2]
            _ = (fs₁.take fs.length).map declKey := by rw [List.map_take]
            _ = fs.map declKey := htake1

/-- The applicable-filter list of a concatenated registry is the
concatenation of the applicable-filter lists, in order. -/
theorem filtersForAction_append (l₁ l₂ : List FilterDecl) (action stage : String) :
    _filtersForAction (l₁ ++ l₂) action stage =
      _filtersForAction l₁ action stage ++ _filtersForAction l₂ action stage := by
  simp [_filtersForAction, List.filter_append]

/-- C6: inheritance composition runs the ancestor levels' filter
declarations first against the shared registry.  For any split of the
walked prototype chain into a descendant segment `chain₁` (visited first)
and an ancestor segment `chain₂`, the composed registry is a leading
segment key-identical to the registry the ancestor segment builds alone
(its declarations possibly narrowed by descendant skips), followed by the
descendant-added declarations; hence for **both** stages the applicable
filter list — which `_buildHandlers` executes in list order — lists the
ancestor-declared filters before the descendant-declared ones (after-filter
order is not reversed relative to before-filter order). -/
theorem c6_ancestor_declarations_first (chain₁ chain₂ : List (Option (List DSLOp)))
    (reg regA : List FilterDecl)
    (h : _buildFilters (chain₁ ++ chain₂) = .ok reg)
    (hA : _buildFilters chain₂ = .ok regA) :
    ∃ P D, reg = P ++ D ∧
      P.map declKey = regA.map declKey ∧
      ∀ action stage, _filtersForAction reg action stage =
        _filtersForAction P action stage ++ _filtersForAction D action stage := by
  unfold _buildFilters at h hA
  rw [List.filterMap_append, List.reverse_append, List.flatten_append,
    runOps_append, hA] at h
  simp only at h
  obtain ⟨hle, htake⟩ := declKey_runOps_take _ regA reg h
  refine ⟨reg.take regA.length, reg.drop regA.length,
    (List.take_append_drop _ _).symm, htake, ?_⟩
  intro action stage
  rw [← filtersForAction_append, List.take_append_drop]

/-- C6 witness: a parent level declaring before `A` and after `C`, a child
level declaring before `B` and after `D`: the composed registry is
`[A, C, B, D]` and for each stage the applicable lists put the parent's
filter first. -/
theorem c6_ancestor_declarations_first_witness :
    ∃ P D, ([⟨"A", "before", ⟨[], [], false⟩⟩, ⟨"C", "after", ⟨[], [], false⟩⟩,
             ⟨"B", "before", ⟨[], [], false⟩⟩, ⟨"D", "after", ⟨[], [], false⟩⟩] :
              List FilterDecl) = P ++ D ∧
      P.map declKey =
        ([⟨"A", "before", ⟨[], [], false⟩⟩, ⟨"C", "after", ⟨[], [], false⟩⟩] :
          List FilterDecl).map declKey ∧
      ∀ action stage,
        _filtersForAction
          [⟨"A", "before", ⟨[], [], false⟩⟩, ⟨"C", "after", ⟨[], [], false⟩⟩,
           ⟨"B", "before", ⟨[], [], false⟩⟩, ⟨"D", "after", ⟨[], [], false⟩⟩]
          action stage =
        _filtersForAction P action stage ++ _filtersForAction D action stage := by
  exact c6_ancestor_declarations_first
    [some [.before "B" ⟨none, none⟩, .after "D" ⟨none, none⟩]]
    [some [.before "A" ⟨none, none⟩, .after "C" ⟨none, none⟩]]
    _ _ rfl rfl

end Foraker
